import Mathlib

/-!
# Verification of the QEMU PCILeech device protocol engine

Shallow embedding of `hw/misc/pcileech.c` (struct `LeechRequestHeader`,
struct `LeechResponseHeader`, `pci_leech_process_write_request`,
`pci_leech_process_read_request`, `pci_leech_worker_thread`) together with
theorems settling the frozen claims about it.

Machine integers are modelled as `Nat` with explicit `% 2 ^ 64` where the C
code's `uint64_t` arithmetic can wrap: the chunk-loop index `i += sizeof(buff)`
and the backend address `request->address + i` are both `uint64_t`.  Because a
`uint64_t` loop `for (i = 0; i < length; i += 1024)` never terminates when no
multiple of 1024 lies in `[length, 2^64)`, the loops are embedded with explicit
fuel and return `Option`: `none` models divergence (or a receive loop blocked
forever on an exhausted input stream).

The blocking socket transport is modelled by explicit byte streams: a
connection delivers a `List Nat` of bytes (each < 256), and the engine's
emitted responses and backend accesses are collected in order.
-/

/-- 2^64, the modulus of the C code's `uint64_t` arithmetic. -/
def U64 : Nat := 2 ^ 64

/-- `sizeof(buff)` in both processing functions: the 1024-byte scratch buffer. -/
def BUFF_SIZE : Nat := 1024

/-- Fuel supplied to the embedded chunk loops.  Any terminating run of the C
loop takes at most `2^54 + 1` iterations (`ceil((2^64-1024)/1024) + 1`), so
`2^60` is sufficient for every terminating case; `none` at this fuel is proved
to coincide with actual divergence of the C loop where that matters. -/
def LEECH_FUEL : Nat := 2 ^ 60

/-- Little-endian byte decomposition: `n` bytes of `x`, least significant
first.  This is the memory layout of a multi-byte integer on a little-endian
host. -/
def toBytesLE : Nat → Nat → List Nat
  | 0, _ => []
  | n + 1, x => x % 256 :: toBytesLE n (x / 256)

/-- Recompose a little-endian byte list into a natural number. -/
def fromBytesLE : List Nat → Nat
  | [] => 0
  | b :: bs => b + 256 * fromBytesLE bs

/-- The 8 bytes of a `uint64_t` value as laid out in memory on a host of the
given byte order (`big = true` for a big-endian host). -/
def u64BytesOrd (big : Bool) (x : Nat) : List Nat :=
  if big then (toBytesLE 8 x).reverse else toBytesLE 8 x

/-- The 4 bytes of a `uint32_t` value as laid out in memory on a host of the
given byte order. -/
def u32BytesOrd (big : Bool) (x : Nat) : List Nat :=
  if big then (toBytesLE 4 x).reverse else toBytesLE 4 x

/-- Read a `uint64_t` out of 8 bytes of memory on a host of the given byte
order. -/
def u64FromBytesOrd (big : Bool) (bs : List Nat) : Nat :=
  if big then fromBytesLE bs.reverse else fromBytesLE bs

/-- QEMU's `bswap64`: reverse the 8 bytes of a 64-bit value. -/
def bswap64 (x : Nat) : Nat := fromBytesLE (toBytesLE 8 x).reverse

/-- `struct LeechRequestHeader` (pcileech.c:40-47), with `address` and
`length` as the `uint64_t` values stored in the struct in host memory.
`endianness` and `command` are the raw `uint8_t` bytes. -/
structure LeechRequestHeader where
  endianness : Nat
  command : Nat
  address : Nat
  length : Nat
deriving DecidableEq

/-- `struct LeechResponseHeader` (pcileech.c:49-54); the three reserved bytes
are always zero (`= { 0 }` initialisation).  `result` is the `MemTxResult`
stored verbatim; `length` is the `uint64_t` value stored in the struct (for
reads this is the possibly byte-swapped chunk length, per pcileech.c:125). -/
structure LeechResponseHeader where
  endianness : Nat
  result : Nat
  length : Nat
deriving DecidableEq

/-- One response as it leaves the device: the header struct followed by
`payload` bytes on the wire (payload is empty for write responses). -/
structure EmittedResponse where
  header : LeechResponseHeader
  payload : List Nat
deriving DecidableEq

/-- One bounded access to the memory backend: `pci_dma_read` with its address
and length, or `pci_dma_write` with its address and the bytes written. -/
inductive BackendOp where
  | read : Nat → Nat → BackendOp
  | write : Nat → List Nat → BackendOp
deriving DecidableEq

/-- The memory backend adapter: the status code returned by a bounded read or
write at a given (address, length), and the memory contents served to reads.
The engine treats all three as opaque. -/
structure Backend where
  readStatus : Nat → Nat → Nat
  writeStatus : Nat → Nat → Nat
  mem : Nat → Nat

/-- Address of a backend operation. -/
def opAddr : BackendOp → Nat
  | .read a _ => a
  | .write a _ => a

/-- Length of a backend operation. -/
def opLen : BackendOp → Nat
  | .read _ l => l
  | .write _ d => d.length

/-- The status code the backend returns for an operation. -/
def opStatus (B : Backend) : BackendOp → Nat
  | .read a l => B.readStatus a l
  | .write a d => B.writeStatus a d.length

/-- The bytes a backend operation writes (empty for reads). -/
def writeData : BackendOp → List Nat
  | .read _ _ => []
  | .write _ d => d

/-- The (address, length) ranges touched by a list of backend operations. -/
def opRanges (ops : List BackendOp) : List (Nat × Nat) :=
  ops.map fun op => (opAddr op, opLen op)

/-- All bytes written by a list of backend operations, in order. -/
def writtenBytes (ops : List BackendOp) : List Nat :=
  (ops.map writeData).flatten

/-- `contiguousFromB start ranges` holds when the (address, length) ranges
are consecutive: each starts exactly where the previous one ended, beginning
at `start`.  This entails ascending order and absence of overlap. -/
def contiguousFromB (start : Nat) : List (Nat × Nat) → Bool
  | [] => true
  | (o, s) :: rest => (o == start) && contiguousFromB (o + s) rest

/-- The chunk loop of `pci_leech_process_read_request` (pcileech.c:112-135):
`for (uint64_t i = 0; i < length; i += sizeof(buff))` with
`readlen = min(length - i, 1024)`.  Per chunk it performs one `pci_dma_read`
at `(address + i) % 2^64`, then emits one response header (result verbatim
from the backend, `length` byte-swapped iff the request's endianness byte
differs from the host's) followed by `readlen` payload bytes.  The `uint64_t`
increment wraps, hence the fuel; `none` is divergence. -/
def pci_leech_read_loop (B : Backend) (stateEnd : Bool) (reqEnd address length : Nat) :
    Nat → Nat → Option (List EmittedResponse × List BackendOp)
  | 0, _ => none
  | fuel + 1, i =>
    if i < length then
      let readlen := min (length - i) BUFF_SIZE
      let addr := (address + i) % U64
      let payload := (List.range readlen).map fun j => B.mem ((addr + j) % U64)
      let resp : LeechResponseHeader :=
        { endianness := if stateEnd then 1 else 0
          result := B.readStatus addr readlen
          length := if reqEnd ≠ (if stateEnd then 1 else 0) then bswap64 readlen else readlen }
      Option.map (fun p => (⟨resp, payload⟩ :: p.1, BackendOp.read addr readlen :: p.2))
        (pci_leech_read_loop B stateEnd reqEnd address length fuel ((i + BUFF_SIZE) % U64))
    else
      some ([], [])

/-- The chunk loop of `pci_leech_process_write_request` (pcileech.c:83-104):
`for (uint64_t i = 0; i < length; i += sizeof(buff))` with
`writelen = min(length - i, 1024)`.  Per chunk it blocks until `writelen`
payload bytes have been received (modelled by `stream.take writelen`; `none`
when the stream holds fewer, i.e. the `recv` loop would block forever), then
performs one `pci_dma_write` at `(address + i) % 2^64` and emits one response
header with the backend status verbatim and `length = 0`.  Returns the
responses, the backend writes, and the unconsumed remainder of the stream. -/
def pci_leech_write_loop (B : Backend) (stateEnd : Bool) (address length : Nat) :
    Nat → Nat → List Nat → Option (List EmittedResponse × List BackendOp × List Nat)
  | 0, _, _ => none
  | fuel + 1, i, stream =>
    if i < length then
      let writelen := min (length - i) BUFF_SIZE
      if stream.length < writelen then none
      else
        let chunk := stream.take writelen
        let addr := (address + i) % U64
        let resp : LeechResponseHeader :=
          { endianness := if stateEnd then 1 else 0
            result := B.writeStatus addr writelen
            length := 0 }
        Option.map (fun p => (⟨resp, []⟩ :: p.1, BackendOp.write addr chunk :: p.2.1, p.2.2))
          (pci_leech_write_loop B stateEnd address length fuel
            ((i + BUFF_SIZE) % U64) (stream.drop writelen))
    else
      some ([], [], stream)

/-- `pci_leech_process_read_request` (pcileech.c:107-136), given the
normalized request. -/
def pci_leech_process_read_request (B : Backend) (stateEnd : Bool)
    (request : LeechRequestHeader) : Option (List EmittedResponse × List BackendOp) :=
  pci_leech_read_loop B stateEnd request.endianness request.address request.length LEECH_FUEL 0

/-- `pci_leech_process_write_request` (pcileech.c:78-105), given the
normalized request and the connection's remaining input byte stream. -/
def pci_leech_process_write_request (B : Backend) (stateEnd : Bool)
    (request : LeechRequestHeader) (stream : List Nat) :
    Option (List EmittedResponse × List BackendOp × List Nat) :=
  pci_leech_write_loop B stateEnd request.address request.length LEECH_FUEL 0 stream

/-- Reading `struct LeechRequestHeader` out of 24 bytes of host memory
(the struct the worker thread `recv`s into, pcileech.c:142,163-167):
byte 0 is `endianness`, byte 1 is `command`, bytes 8..15 and 16..23 are
`address` and `length` in the host's byte order (`hostBig`). -/
def decodeRequestRaw (hostBig : Bool) (bs : List Nat) : LeechRequestHeader :=
  { endianness := bs.getD 0 0
    command := bs.getD 1 0
    address := u64FromBytesOrd hostBig ((bs.drop 8).take 8)
    length := u64FromBytesOrd hostBig ((bs.drop 16).take 8) }

/-- The endianness-swap step of the worker thread (pcileech.c:168-172):
`if (request.endianness != state->endianness) { bswap64 address and length }`.
`state->endianness` is the C `bool` promoted to 0/1 for the comparison. -/
def normalizeRequest (stateEnd : Bool) (r : LeechRequestHeader) : LeechRequestHeader :=
  if r.endianness ≠ (if stateEnd then 1 else 0) then
    { r with address := bswap64 r.address, length := bswap64 r.length }
  else r

/-- Everything one accepted connection produces (the worker serves exactly one
request per connection, then closes it, pcileech.c:157-181). -/
structure ConnResult where
  request : LeechRequestHeader
  responses : List EmittedResponse
  ops : List BackendOp
  leftover : List Nat
deriving DecidableEq

/-- One iteration of `pci_leech_worker_thread`'s accept loop
(pcileech.c:163-181) on one accepted connection delivering `stream`: block
until 24 header bytes are received (`none` if the stream is shorter), swap
endianness if declared order differs from the host's, then dispatch on
`if (request.command)` — any nonzero command is the write path, zero is the
read path. -/
def handleConnection (B : Backend) (stateEnd : Bool) (stream : List Nat) :
    Option ConnResult :=
  if stream.length < 24 then none
  else
    let req := normalizeRequest stateEnd (decodeRequestRaw stateEnd (stream.take 24))
    let rest := stream.drop 24
    if req.command ≠ 0 then
      Option.map (fun t => ⟨req, t.1, t.2.1, t.2.2⟩)
        (pci_leech_process_write_request B stateEnd req rest)
    else
      Option.map (fun p => ⟨req, p.1, p.2, rest⟩)
        (pci_leech_process_read_request B stateEnd req)

/-- The worker thread's accept-serve loop over a sequence of accepted
connections (stopping-flag and accept-failure handling aside, each accepted
connection is served independently by one loop iteration). -/
def pci_leech_worker_run (B : Backend) (stateEnd : Bool) (conns : List (List Nat)) :
    List (Option ConnResult) :=
  conns.map (handleConnection B stateEnd)

/-- `recv(incoming, &buffer[pos], ...)`: one transport delivery lands at
offset `pos` of the accumulation buffer. -/
def writeBytesAt (buf : List Nat) (pos : Nat) (data : List Nat) : List Nat :=
  buf.take pos ++ data ++ buf.drop (pos + data.length)

/-- The header accumulation loop `while (received < sizeof(header)) received
+= recv(..., &buffer[received], ...)` (pcileech.c:164-167), run over the list
of fragment sizes the transport happens to deliver: each fragment is written
at the current offset and the offset advances by its length.  Returns the
buffer and the final offset. -/
def recvAccumLoop : List (List Nat) → List Nat → Nat → List Nat × Nat
  | [], buf, pos => (buf, pos)
  | f :: fs, buf, pos => recvAccumLoop fs (writeBytesAt buf pos f) (pos + f.length)

/-- The 16 bytes of `struct LeechResponseHeader` as sent on the wire
(`send(incoming, response_buffer, ...)`, pcileech.c:100-103 and 127-130):
the raw struct memory on a host of byte order `hostBig` — one endianness
byte, three zero reserved bytes, the 4-byte `result` in host order, the
8-byte `length` field (whatever value the struct holds) in host order. -/
def encodeResponseBytes (hostBig : Bool) (r : LeechResponseHeader) : List Nat :=
  r.endianness % 256 :: 0 :: 0 :: 0 ::
    (u32BytesOrd hostBig (r.result % 2 ^ 32) ++ u64BytesOrd hostBig (r.length % U64))

/-- The 24 request-header bytes a well-formed client with declared endianness
byte `e` puts on the wire for `{command := c, address := a, length := l}`:
the client stores its multi-byte fields in its own declared byte order
(nonzero `e` declares big-endian).  This is the test-harness encoder for the
wire format of pcileech.c:40-47. -/
def mkRequestBytes (e c a l : Nat) : List Nat :=
  e % 256 :: c % 256 :: 0 :: 0 :: 0 :: 0 :: 0 :: 0 ::
    (u64BytesOrd (e % 256 != 0) a ++ u64BytesOrd (e % 256 != 0) l)

/-- A concrete backend (all statuses 0, memory all zero) used for concrete
evaluations. -/
def backendZero : Backend :=
  { readStatus := fun _ _ => 0, writeStatus := fun _ _ => 0, mem := fun _ => 0 }

/-! ## Byte codec lemmas -/

theorem toBytesLE_length (n x : Nat) : (toBytesLE n x).length = n := by
  induction n generalizing x with
  | zero => rfl
  | succ n ih => simp [toBytesLE, ih]

theorem toBytesLE_lt (n x : Nat) : ∀ b ∈ toBytesLE n x, b < 256 := by
  induction n generalizing x with
  | zero => simp [toBytesLE]
  | succ n ih =>
    simp only [toBytesLE, List.mem_cons]
    rintro b (rfl | hb)
    · exact Nat.mod_lt _ (by norm_num)
    · exact ih _ _ hb

theorem fromBytesLE_toBytesLE (n x : Nat) : fromBytesLE (toBytesLE n x) = x % 256 ^ n := by
  induction n generalizing x with
  | zero => simp [toBytesLE, fromBytesLE, Nat.mod_one]
  | succ n ih =>
    rw [pow_succ', Nat.mod_mul]
    simp [toBytesLE, fromBytesLE, ih]

theorem fromBytesLE_lt (bs : List Nat) (h : ∀ b ∈ bs, b < 256) :
    fromBytesLE bs < 256 ^ bs.length := by
  induction bs with
  | nil => simp [fromBytesLE]
  | cons b bs ih =>
    have hb : b < 256 := h b (by simp)
    have hf : fromBytesLE bs < 256 ^ bs.length := ih fun x hx => h x (by simp [hx])
    calc fromBytesLE (b :: bs) = b + 256 * fromBytesLE bs := rfl
      _ < 256 * (fromBytesLE bs + 1) := by omega
      _ ≤ 256 * 256 ^ bs.length := Nat.mul_le_mul_left _ hf
      _ = 256 ^ (b :: bs).length := by rw [List.length_cons, pow_succ']

theorem toBytesLE_fromBytesLE (bs : List Nat) (h : ∀ b ∈ bs, b < 256) :
    toBytesLE bs.length (fromBytesLE bs) = bs := by
  induction bs with
  | nil => rfl
  | cons b bs ih =>
    have hb : b < 256 := h b (by simp)
    have h1 : (b + 256 * fromBytesLE bs) % 256 = b := by
      rw [Nat.add_mul_mod_self_left, Nat.mod_eq_of_lt hb]
    have h2 : (b + 256 * fromBytesLE bs) / 256 = fromBytesLE bs := by
      rw [Nat.add_mul_div_left _ _ (by norm_num : (0:Nat) < 256),
        Nat.div_eq_of_lt hb, Nat.zero_add]
    simp only [List.length_cons, toBytesLE, fromBytesLE, h1, h2]
    rw [ih fun x hx => h x (by simp [hx])]

theorem bswap64_lt (x : Nat) : bswap64 x < U64 := by
  have h := fromBytesLE_lt (toBytesLE 8 x).reverse
    (by intro b hb; exact toBytesLE_lt 8 x b (List.mem_reverse.mp hb))
  rw [List.length_reverse, toBytesLE_length] at h
  simpa [bswap64, U64] using h

theorem bswap64_bswap64 (x : Nat) (hx : x < U64) : bswap64 (bswap64 x) = x := by
  have hlen : (toBytesLE 8 x).reverse.length = 8 := by
    rw [List.length_reverse, toBytesLE_length]
  have hmem : ∀ b ∈ (toBytesLE 8 x).reverse, b < 256 := by
    intro b hb; exact toBytesLE_lt 8 x b (List.mem_reverse.mp hb)
  have h1 : toBytesLE 8 (bswap64 x) = (toBytesLE 8 x).reverse := by
    have := toBytesLE_fromBytesLE (toBytesLE 8 x).reverse hmem
    rwa [hlen] at this
  calc bswap64 (bswap64 x) = fromBytesLE (toBytesLE 8 (bswap64 x)).reverse := rfl
    _ = fromBytesLE (toBytesLE 8 x) := by rw [h1, List.reverse_reverse]
    _ = x := by
        rw [fromBytesLE_toBytesLE]
        exact Nat.mod_eq_of_lt (by simpa [U64] using hx)

theorem u64BytesOrd_length (big : Bool) (x : Nat) : (u64BytesOrd big x).length = 8 := by
  cases big <;> simp [u64BytesOrd, toBytesLE_length]

theorem u64From_u64Bytes_same (big : Bool) (x : Nat) :
    u64FromBytesOrd big (u64BytesOrd big x) = x % U64 := by
  have h : (256 : Nat) ^ 8 = U64 := by norm_num [U64]
  cases big <;>
    simp [u64FromBytesOrd, u64BytesOrd, List.reverse_reverse, fromBytesLE_toBytesLE, h]

theorem u64From_u64Bytes_cross (b1 b2 : Bool) (x : Nat) (h : b1 ≠ b2) :
    u64FromBytesOrd b1 (u64BytesOrd b2 x) = bswap64 x := by
  cases b1 <;> cases b2 <;> simp_all [u64FromBytesOrd, u64BytesOrd, bswap64,
    List.reverse_reverse]

/-! ## Header encode/decode lemmas -/

theorem mkRequestBytes_length (e c a l : Nat) : (mkRequestBytes e c a l).length = 24 := by
  simp [mkRequestBytes, u64BytesOrd_length]

theorem decodeRequestRaw_mk (stE : Bool) (e c a l : Nat) :
    decodeRequestRaw stE (mkRequestBytes e c a l) =
      ⟨e % 256, c % 256, u64FromBytesOrd stE (u64BytesOrd (e % 256 != 0) a),
        u64FromBytesOrd stE (u64BytesOrd (e % 256 != 0) l)⟩ := by
  have hA : (u64BytesOrd (e % 256 != 0) a).length = 8 := u64BytesOrd_length _ _
  have hL : (u64BytesOrd (e % 256 != 0) l).length = 8 := u64BytesOrd_length _ _
  simp [decodeRequestRaw, mkRequestBytes, List.take_left' hA, List.drop_left' hA,
    List.take_of_length_le (le_of_eq hL)]

theorem normalize_decode_mk (stE : Bool) (e c a l : Nat) (he : e < 2)
    (ha : a < U64) (hl : l < U64) :
    normalizeRequest stE (decodeRequestRaw stE (mkRequestBytes e c a l)) =
      ⟨e, c % 256, a, l⟩ := by
  rw [decodeRequestRaw_mk]
  interval_cases e <;> cases stE <;>
    simp [normalizeRequest, u64From_u64Bytes_same,
      u64From_u64Bytes_cross false true _ (by simp),
      u64From_u64Bytes_cross true false _ (by simp),
      Nat.mod_eq_of_lt ha, Nat.mod_eq_of_lt hl, bswap64_bswap64 a ha, bswap64_bswap64 l hl]

/-! ## Loop unfolding lemmas -/

theorem read_loop_stop (B : Backend) (stE : Bool) (e a L fuel i : Nat) (h : ¬ i < L) :
    pci_leech_read_loop B stE e a L (fuel + 1) i = some ([], []) := by
  simp [pci_leech_read_loop, h]

theorem read_loop_step (B : Backend) (stE : Bool) (e a L fuel i : Nat) (h : i < L) :
    pci_leech_read_loop B stE e a L (fuel + 1) i =
      Option.map (fun p =>
        (⟨⟨if stE then 1 else 0,
            B.readStatus ((a + i) % U64) (min (L - i) BUFF_SIZE),
            if e ≠ (if stE then 1 else 0) then bswap64 (min (L - i) BUFF_SIZE)
              else min (L - i) BUFF_SIZE⟩,
          (List.range (min (L - i) BUFF_SIZE)).map fun j =>
            B.mem (((a + i) % U64 + j) % U64)⟩ :: p.1,
          BackendOp.read ((a + i) % U64) (min (L - i) BUFF_SIZE) :: p.2))
        (pci_leech_read_loop B stE e a L fuel ((i + BUFF_SIZE) % U64)) := by
  simp [pci_leech_read_loop, h]

theorem write_loop_stop (B : Backend) (stE : Bool) (a L fuel i : Nat) (stream : List Nat)
    (h : ¬ i < L) :
    pci_leech_write_loop B stE a L (fuel + 1) i stream = some ([], [], stream) := by
  simp [pci_leech_write_loop, h]

theorem write_loop_starve (B : Backend) (stE : Bool) (a L fuel i : Nat) (stream : List Nat)
    (h : i < L) (hs : stream.length < min (L - i) BUFF_SIZE) :
    pci_leech_write_loop B stE a L (fuel + 1) i stream = none := by
  simp [pci_leech_write_loop, h, hs]

theorem write_loop_step (B : Backend) (stE : Bool) (a L fuel i : Nat) (stream : List Nat)
    (h : i < L) (hs : ¬ stream.length < min (L - i) BUFF_SIZE) :
    pci_leech_write_loop B stE a L (fuel + 1) i stream =
      Option.map (fun p =>
        (⟨⟨if stE then 1 else 0,
            B.writeStatus ((a + i) % U64) (min (L - i) BUFF_SIZE), 0⟩, []⟩ :: p.1,
          BackendOp.write ((a + i) % U64) (stream.take (min (L - i) BUFF_SIZE)) :: p.2.1,
          p.2.2))
        (pci_leech_write_loop B stE a L fuel ((i + BUFF_SIZE) % U64)
          (stream.drop (min (L - i) BUFF_SIZE))) := by
  simp [pci_leech_write_loop, h, hs]

/-! ## Terminating runs of the chunk loops -/

theorem read_loop_run (B : Backend) (stE : Bool) (e a L : Nat)
    (hL : L ≤ U64 - BUFF_SIZE) :
    ∀ fuel i, 1 ≤ fuel → L ≤ i + 1024 * (fuel - 1) →
      ∃ rs ops, pci_leech_read_loop B stE e a L fuel i = some (rs, ops) ∧
        rs.length = (L - i + 1023) / 1024 ∧
        ops.length = (L - i + 1023) / 1024 ∧
        (rs.map fun r => r.payload.length).sum = L - i ∧
        (a + L ≤ U64 → contiguousFromB (a + i) (opRanges ops) = true) := by
  have hU : U64 = 18446744073709551616 := by norm_num [U64]
  have hB : BUFF_SIZE = 1024 := rfl
  intro fuel
  induction fuel with
  | zero => intro i h1 _; omega
  | succ fuel ih =>
    intro i _ hfi
    simp only [Nat.succ_sub_one] at hfi
    by_cases hi : i < L
    · have hmod : (i + BUFF_SIZE) % U64 = i + BUFF_SIZE := Nat.mod_eq_of_lt (by omega)
      have hfuel1 : 1 ≤ fuel := by
        rcases Nat.eq_zero_or_pos fuel with h0 | h1
        · subst h0; omega
        · exact h1
      have hfi' : L ≤ (i + BUFF_SIZE) + 1024 * (fuel - 1) := by omega
      obtain ⟨rs, ops, hsome, hlen, holen, hsum, hcontig⟩ :=
        ih (i + BUFF_SIZE) hfuel1 hfi'
      rw [read_loop_step B stE e a L fuel i hi, hmod, hsome]
      simp only [Option.map_some']
      refine ⟨_, _, rfl, ?_, ?_, ?_, ?_⟩
      · simp only [List.length_cons, hlen]; omega
      · simp only [List.length_cons, holen]; omega
      · simp only [List.map_cons, List.sum_cons, List.length_map, List.length_range, hsum]
        omega
      · intro haL
        have haddr : (a + i) % U64 = a + i := Nat.mod_eq_of_lt (by omega)
        simp only [opRanges, List.map_cons, contiguousFromB, haddr, opAddr, opLen,
          beq_self_eq_true, Bool.true_and]
        simp only [opRanges] at hcontig
        by_cases hnext : i + BUFF_SIZE < L
        · have hmin : min (L - i) BUFF_SIZE = BUFF_SIZE := by omega
          rw [hmin, show a + i + BUFF_SIZE = a + (i + BUFF_SIZE) from by omega]
          exact hcontig haL
        · have hlen0 : ops.length = 0 := by omega
          rw [List.length_eq_zero] at hlen0
          subst hlen0
          simp [contiguousFromB]
    · rw [read_loop_stop B stE e a L fuel i hi]
      refine ⟨[], [], rfl, ?_, ?_, ?_, ?_⟩
      · simp only [List.length_nil]; omega
      · simp only [List.length_nil]; omega
      · simp only [List.map_nil, List.sum_nil]; omega
      · intro _; simp [opRanges, contiguousFromB]

theorem write_loop_run (B : Backend) (stE : Bool) (a L : Nat)
    (hL : L ≤ U64 - BUFF_SIZE) :
    ∀ fuel i stream, 1 ≤ fuel → L ≤ i + 1024 * (fuel - 1) →
        L - i ≤ stream.length →
      ∃ rs ops, pci_leech_write_loop B stE a L fuel i stream =
          some (rs, ops, stream.drop (L - i)) ∧
        rs.length = (L - i + 1023) / 1024 ∧
        ops.length = (L - i + 1023) / 1024 ∧
        writtenBytes ops = stream.take (L - i) ∧
        (∀ r ∈ rs, r.header.length = 0 ∧ r.payload = []) ∧
        (a + L ≤ U64 → contiguousFromB (a + i) (opRanges ops) = true) := by
  have hU : U64 = 18446744073709551616 := by norm_num [U64]
  have hB : BUFF_SIZE = 1024 := rfl
  intro fuel
  induction fuel with
  | zero => intro i stream h1 _ _; omega
  | succ fuel ih =>
    intro i stream _ hfi hstream
    simp only [Nat.succ_sub_one] at hfi
    by_cases hi : i < L
    · have hmod : (i + BUFF_SIZE) % U64 = i + BUFF_SIZE := Nat.mod_eq_of_lt (by omega)
      have hs : ¬ stream.length < min (L - i) BUFF_SIZE := by omega
      have hfuel1 : 1 ≤ fuel := by
        rcases Nat.eq_zero_or_pos fuel with h0 | h1
        · subst h0; omega
        · exact h1
      have hfi' : L ≤ (i + BUFF_SIZE) + 1024 * (fuel - 1) := by omega
      have hdlen : (stream.drop (min (L - i) BUFF_SIZE)).length =
          stream.length - min (L - i) BUFF_SIZE := List.length_drop _ _
      have hstream' : L - (i + BUFF_SIZE) ≤ (stream.drop (min (L - i) BUFF_SIZE)).length := by
        omega
      obtain ⟨rs, ops, hsome, hlen, holen, hwr, hresp, hcontig⟩ :=
        ih (i + BUFF_SIZE) (stream.drop (min (L - i) BUFF_SIZE)) hfuel1 hfi' hstream'
      have hleft : (stream.drop (min (L - i) BUFF_SIZE)).drop (L - (i + BUFF_SIZE)) =
          stream.drop (L - i) := by
        rw [List.drop_drop,
          show min (L - i) BUFF_SIZE + (L - (i + BUFF_SIZE)) = L - i from by omega]
      rw [write_loop_step B stE a L fuel i stream hi hs, hmod, hsome, hleft]
      simp only [Option.map_some']
      refine ⟨_, _, rfl, ?_, ?_, ?_, ?_, ?_⟩
      · simp only [List.length_cons, hlen]; omega
      · simp only [List.length_cons, holen]; omega
      · simp only [writtenBytes, List.map_cons, List.flatten_cons, writeData] at hwr ⊢
        rw [hwr]
        conv_rhs => rw [show L - i = min (L - i) BUFF_SIZE + (L - (i + BUFF_SIZE)) from by
          omega]
        rw [List.take_add]
      · intro r hr
        rcases List.mem_cons.mp hr with rfl | hr'
        · exact ⟨rfl, rfl⟩
        · exact hresp r hr'
      · intro haL
        have haddr : (a + i) % U64 = a + i := Nat.mod_eq_of_lt (by omega)
        simp only [opRanges, List.map_cons, contiguousFromB, haddr, opAddr, opLen,
          List.length_take, beq_self_eq_true, Bool.true_and]
        simp only [opRanges] at hcontig
        by_cases hnext : i + BUFF_SIZE < L
        · have hmin : min (min (L - i) BUFF_SIZE) stream.length = BUFF_SIZE := by omega
          rw [hmin, show a + i + BUFF_SIZE = a + (i + BUFF_SIZE) from by omega]
          exact hcontig haL
        · have hlen0 : ops.length = 0 := by omega
          rw [List.length_eq_zero] at hlen0
          subst hlen0
          simp [contiguousFromB]
    · rw [write_loop_stop B stE a L fuel i stream hi]
      have h0 : L - i = 0 := by omega
      refine ⟨[], [], ?_, ?_, ?_, ?_, ?_, ?_⟩
      · rw [h0, List.drop_zero]
      · simp only [List.length_nil]; omega
      · simp only [List.length_nil]; omega
      · simp [writtenBytes, h0]
      · intro r hr; simp at hr
      · intro _; simp [opRanges, contiguousFromB]

/-! ## Per-chunk field lemmas (no termination hypotheses) -/

theorem read_loop_fields (B : Backend) (stE : Bool) (e a L : Nat) :
    ∀ fuel i rs ops, pci_leech_read_loop B stE e a L fuel i = some (rs, ops) →
      List.Forall₂ (fun (r : EmittedResponse) op =>
        r.header.endianness = (if stE then 1 else 0) ∧
        r.header.result = opStatus B op ∧
        r.payload.length = opLen op ∧
        r.header.length =
          (if e ≠ (if stE then 1 else 0) then bswap64 (opLen op) else opLen op) ∧
        ∃ rem, 0 < rem ∧ opLen op = min rem BUFF_SIZE) rs ops := by
  intro fuel
  induction fuel with
  | zero => intro i rs ops h; exact absurd h (by simp [pci_leech_read_loop])
  | succ fuel ih =>
    intro i rs ops h
    by_cases hi : i < L
    · rw [read_loop_step B stE e a L fuel i hi] at h
      cases hrec : pci_leech_read_loop B stE e a L fuel ((i + BUFF_SIZE) % U64) with
      | none => rw [hrec] at h; simp at h
      | some p =>
        obtain ⟨rs', ops'⟩ := p
        rw [hrec] at h
        simp only [Option.map_some', Option.some.injEq] at h
        obtain ⟨h1, h2⟩ := Prod.mk.inj h
        subst h1; subst h2
        refine List.Forall₂.cons ⟨rfl, rfl, by simp [opLen], rfl, ⟨L - i, by omega, rfl⟩⟩
          (ih _ _ _ hrec)
    · rw [read_loop_stop B stE e a L fuel i hi] at h
      simp only [Option.some.injEq] at h
      obtain ⟨h1, h2⟩ := Prod.mk.inj h
      subst h1; subst h2
      exact List.Forall₂.nil

theorem write_loop_fields (B : Backend) (stE : Bool) (a L : Nat) :
    ∀ fuel i stream rs ops rest,
      pci_leech_write_loop B stE a L fuel i stream = some (rs, ops, rest) →
      List.Forall₂ (fun (r : EmittedResponse) op =>
        r.header = ⟨(if stE then 1 else 0), opStatus B op, 0⟩ ∧
        r.payload = [] ∧
        ∃ rem, 0 < rem ∧ opLen op = min rem BUFF_SIZE) rs ops := by
  intro fuel
  induction fuel with
  | zero => intro i stream rs ops rest h; exact absurd h (by simp [pci_leech_write_loop])
  | succ fuel ih =>
    intro i stream rs ops rest h
    by_cases hi : i < L
    · by_cases hs : stream.length < min (L - i) BUFF_SIZE
      · rw [write_loop_starve B stE a L fuel i stream hi hs] at h
        simp at h
      · rw [write_loop_step B stE a L fuel i stream hi hs] at h
        cases hrec : pci_leech_write_loop B stE a L fuel ((i + BUFF_SIZE) % U64)
            (stream.drop (min (L - i) BUFF_SIZE)) with
        | none => rw [hrec] at h; simp at h
        | some p =>
          obtain ⟨rs', ops', rest'⟩ := p
          rw [hrec] at h
          simp only [Option.map_some', Option.some.injEq] at h
          obtain ⟨h1, h2⟩ := Prod.mk.inj h
          obtain ⟨h2a, h2b⟩ := Prod.mk.inj h2
          subst h1; subst h2a
          have hcl : (stream.take (min (L - i) BUFF_SIZE)).length =
              min (L - i) BUFF_SIZE := by
            simp only [List.length_take]; omega
          refine List.Forall₂.cons ⟨?_, rfl, ⟨L - i, by omega, by simp [opLen, hcl]⟩⟩
            (ih _ _ _ _ _ hrec)
          show (⟨(if stE then 1 else 0), B.writeStatus ((a + i) % U64)
              (min (L - i) BUFF_SIZE), 0⟩ : LeechResponseHeader) = _
          simp only [opStatus, hcl]
    · rw [write_loop_stop B stE a L fuel i stream hi] at h
      simp only [Option.some.injEq] at h
      obtain ⟨h1, h2⟩ := Prod.mk.inj h
      obtain ⟨h2a, h2b⟩ := Prod.mk.inj h2
      subst h1; subst h2a
      exact List.Forall₂.nil

/-! ## Independence of the loop structure from the endianness byte and the
backend's status functions -/

theorem read_loop_reqend_indep (B : Backend) (stE : Bool) (e1 e2 a L : Nat) :
    ∀ fuel i,
      Option.map (fun p => (p.1.map fun r => (r.header.result, r.payload), p.2))
        (pci_leech_read_loop B stE e1 a L fuel i) =
      Option.map (fun p => (p.1.map fun r => (r.header.result, r.payload), p.2))
        (pci_leech_read_loop B stE e2 a L fuel i) := by
  intro fuel
  induction fuel with
  | zero => intro i; rfl
  | succ fuel ih =>
    intro i
    by_cases hi : i < L
    · rw [read_loop_step B stE e1 a L fuel i hi, read_loop_step B stE e2 a L fuel i hi]
      have hIH := ih ((i + BUFF_SIZE) % U64)
      cases h1 : pci_leech_read_loop B stE e1 a L fuel ((i + BUFF_SIZE) % U64) with
      | none =>
        rw [h1] at hIH
        cases h2 : pci_leech_read_loop B stE e2 a L fuel ((i + BUFF_SIZE) % U64) with
        | none => rfl
        | some p2 => rw [h2] at hIH; simp at hIH
      | some p1 =>
        rw [h1] at hIH
        cases h2 : pci_leech_read_loop B stE e2 a L fuel ((i + BUFF_SIZE) % U64) with
        | none => rw [h2] at hIH; simp at hIH
        | some p2 =>
          rw [h2] at hIH
          simp only [Option.map_some', Option.some.injEq, Prod.mk.injEq] at hIH
          obtain ⟨hh1, hh2⟩ := hIH
          simp [hh1, hh2]
    · rw [read_loop_stop B stE e1 a L fuel i hi, read_loop_stop B stE e2 a L fuel i hi]

theorem read_loop_backend_indep (B B' : Backend) (stE : Bool) (e a L : Nat) :
    ∀ fuel i,
      Option.map (fun p => (p.1.length, p.2.map fun op => (opAddr op, opLen op)))
        (pci_leech_read_loop B stE e a L fuel i) =
      Option.map (fun p => (p.1.length, p.2.map fun op => (opAddr op, opLen op)))
        (pci_leech_read_loop B' stE e a L fuel i) := by
  intro fuel
  induction fuel with
  | zero => intro i; rfl
  | succ fuel ih =>
    intro i
    by_cases hi : i < L
    · rw [read_loop_step B stE e a L fuel i hi, read_loop_step B' stE e a L fuel i hi]
      have hIH := ih ((i + BUFF_SIZE) % U64)
      cases h1 : pci_leech_read_loop B stE e a L fuel ((i + BUFF_SIZE) % U64) with
      | none =>
        rw [h1] at hIH
        cases h2 : pci_leech_read_loop B' stE e a L fuel ((i + BUFF_SIZE) % U64) with
        | none => rfl
        | some p2 => rw [h2] at hIH; simp at hIH
      | some p1 =>
        rw [h1] at hIH
        cases h2 : pci_leech_read_loop B' stE e a L fuel ((i + BUFF_SIZE) % U64) with
        | none => rw [h2] at hIH; simp at hIH
        | some p2 =>
          rw [h2] at hIH
          simp only [Option.map_some', Option.some.injEq, Prod.mk.injEq] at hIH
          obtain ⟨hh1, hh2⟩ := hIH
          simp [hh1, hh2]
    · rw [read_loop_stop B stE e a L fuel i hi, read_loop_stop B' stE e a L fuel i hi]

theorem write_loop_backend_indep (B B' : Backend) (stE : Bool) (a L : Nat) :
    ∀ fuel i stream,
      Option.map (fun t => (t.1.length, t.2))
        (pci_leech_write_loop B stE a L fuel i stream) =
      Option.map (fun t => (t.1.length, t.2))
        (pci_leech_write_loop B' stE a L fuel i stream) := by
  intro fuel
  induction fuel with
  | zero => intro i stream; rfl
  | succ fuel ih =>
    intro i stream
    by_cases hi : i < L
    · by_cases hs : stream.length < min (L - i) BUFF_SIZE
      · rw [write_loop_starve B stE a L fuel i stream hi hs,
          write_loop_starve B' stE a L fuel i stream hi hs]
      · rw [write_loop_step B stE a L fuel i stream hi hs,
          write_loop_step B' stE a L fuel i stream hi hs]
        have hIH := ih ((i + BUFF_SIZE) % U64) (stream.drop (min (L - i) BUFF_SIZE))
        cases h1 : pci_leech_write_loop B stE a L fuel ((i + BUFF_SIZE) % U64)
            (stream.drop (min (L - i) BUFF_SIZE)) with
        | none =>
          rw [h1] at hIH
          cases h2 : pci_leech_write_loop B' stE a L fuel ((i + BUFF_SIZE) % U64)
              (stream.drop (min (L - i) BUFF_SIZE)) with
          | none => rfl
          | some p2 => rw [h2] at hIH; simp at hIH
        | some p1 =>
          rw [h1] at hIH
          cases h2 : pci_leech_write_loop B' stE a L fuel ((i + BUFF_SIZE) % U64)
              (stream.drop (min (L - i) BUFF_SIZE)) with
          | none => rw [h2] at hIH; simp at hIH
          | some p2 =>
            rw [h2] at hIH
            simp only [Option.map_some', Option.some.injEq, Prod.mk.injEq] at hIH
            obtain ⟨hh1, hh2⟩ := hIH
            simp [hh1, hh2]
    · rw [write_loop_stop B stE a L fuel i stream hi,
        write_loop_stop B' stE a L fuel i stream hi]

/-! ## Divergence of the read loop for lengths in the wrap zone -/

theorem read_loop_diverges (B : Backend) (stE : Bool) (e a L : Nat)
    (hL : U64 - BUFF_SIZE < L) :
    ∀ fuel i, BUFF_SIZE ∣ i → i < U64 →
      pci_leech_read_loop B stE e a L fuel i = none := by
  have hU : U64 = 18446744073709551616 := by norm_num [U64]
  have hB : BUFF_SIZE = 1024 := rfl
  intro fuel
  induction fuel with
  | zero => intro i _ _; rfl
  | succ fuel ih =>
    intro i hdvd hiU
    have hi : i < L := by
      obtain ⟨k, hk⟩ := hdvd
      rw [hB] at hk
      omega
    have hd : BUFF_SIZE ∣ (i + BUFF_SIZE) % U64 := by
      have hdU : BUFF_SIZE ∣ U64 := ⟨2 ^ 54, by norm_num [U64, BUFF_SIZE]⟩
      exact (Nat.dvd_mod_iff hdU).mpr (Nat.dvd_add hdvd dvd_rfl)
    have hlt : (i + BUFF_SIZE) % U64 < U64 := Nat.mod_lt _ (by norm_num [U64])
    rw [read_loop_step B stE e a L fuel i hi, ih _ hd hlt]
    rfl

/-! ## The receive accumulation loop writes fragments back-to-back -/

theorem recvAccumLoop_flatten :
    ∀ (frags : List (List Nat)) (buf : List Nat) (pos : Nat),
      pos + frags.flatten.length ≤ buf.length →
      (recvAccumLoop frags buf pos).1 =
        buf.take pos ++ frags.flatten ++ buf.drop (pos + frags.flatten.length) := by
  intro frags
  induction frags with
  | nil =>
    intro buf pos h
    simp only [recvAccumLoop, List.flatten_nil, List.length_nil, Nat.add_zero,
      List.append_nil]
    exact (List.take_append_drop pos buf).symm
  | cons f fs ih =>
    intro buf pos h
    simp only [List.flatten_cons, List.length_append] at h ⊢
    have hbuf : (writeBytesAt buf pos f).length = buf.length := by
      simp only [writeBytesAt, List.length_append, List.length_take, List.length_drop]
      omega
    have hbound : (pos + f.length) + fs.flatten.length ≤ (writeBytesAt buf pos f).length := by
      rw [hbuf]; omega
    have hrec := ih (writeBytesAt buf pos f) (pos + f.length) hbound
    simp only [recvAccumLoop]
    rw [hrec]
    have hA : (buf.take pos ++ f).length = pos + f.length := by
      simp only [List.length_append, List.length_take]; omega
    have hW : writeBytesAt buf pos f = (buf.take pos ++ f) ++ buf.drop (pos + f.length) := by
      simp [writeBytesAt, List.append_assoc]
    rw [hW, List.take_left' hA, ← List.drop_drop, List.drop_left' hA, List.drop_drop,
      show pos + f.length + fs.flatten.length = pos + (f.length + fs.flatten.length) from
        by omega]
    simp [List.append_assoc]

theorem recvAccumLoop_total (frags : List (List Nat)) (buf : List Nat)
    (hb : buf.length = 24) (hj : frags.flatten.length = 24) :
    (recvAccumLoop frags buf 0).1 = frags.flatten := by
  have h := recvAccumLoop_flatten frags buf 0 (by omega)
  rw [h, hj, List.take_zero, Nat.zero_add, ← hb, List.drop_length, List.append_nil,
    List.nil_append]

/-! ## Forall₂ helpers -/

theorem forall2_map_congr {α β γ : Type} {R : α → β → Prop} {f : α → γ} {g : β → γ}
    (hfg : ∀ x y, R x y → f x = g y) :
    ∀ {xs : List α} {ys : List β}, List.Forall₂ R xs ys → xs.map f = ys.map g := by
  intro xs ys h
  induction h with
  | nil => rfl
  | cons hxy _ ih => simp only [List.map_cons, ih, hfg _ _ hxy]

theorem forall2_mem_right {α β : Type} {R : α → β → Prop} :
    ∀ {xs : List α} {ys : List β}, List.Forall₂ R xs ys → ∀ y ∈ ys, ∃ x, R x y := by
  intro xs ys h
  induction h with
  | nil => intro y hy; simp at hy
  | cons hxy _ ih =>
    intro y hy
    rcases List.mem_cons.mp hy with rfl | hy'
    · exact ⟨_, hxy⟩
    · exact ih y hy'

/-! ## Claim theorems -/

/-- C1 (amended): for every read request whose length stays below the
`uint64_t` wrap zone (`L ≤ 2^64 - 1024`) and whose address range does not wrap
64 bits (`a + L ≤ 2^64`), processing emits exactly `ceil(L / 1024)`
response-header/payload pairs (0 pairs when `L = 0`) whose payload lengths sum
to exactly `L`, each response's length field carrying exactly its payload
length (byte-swapped when the request's declared endianness differs from the
host's), and whose backend read ranges are contiguous, non-overlapping and in
ascending order starting at the request's address. -/
theorem pcileech_read_chunking (B : Backend) (stE : Bool) (e a L : Nat)
    (h1 : L ≤ U64 - BUFF_SIZE) (h2 : a + L ≤ U64) :
    ∃ rs ops,
      pci_leech_process_read_request B stE ⟨e, 0, a, L⟩ = some (rs, ops) ∧
      rs.length = (L + 1023) / 1024 ∧
      ops.length = (L + 1023) / 1024 ∧
      (rs.map fun r => r.payload.length).sum = L ∧
      List.Forall₂ (fun (r : EmittedResponse) op =>
        r.payload.length = opLen op ∧
        r.header.length =
          (if e ≠ (if stE then 1 else 0) then bswap64 (opLen op) else opLen op)) rs ops ∧
      contiguousFromB a (opRanges ops) = true := by
  have hfp : L ≤ 0 + 1024 * (LEECH_FUEL - 1) := by
    have hF : LEECH_FUEL = 1152921504606846976 := by norm_num [LEECH_FUEL]
    have hU : U64 = 18446744073709551616 := by norm_num [U64]
    have hB : BUFF_SIZE = 1024 := rfl
    omega
  obtain ⟨rs, ops, hsome, hlen, holen, hsum, hcontig⟩ :=
    read_loop_run B stE e a L h1 LEECH_FUEL 0 (by norm_num [LEECH_FUEL]) hfp
  refine ⟨rs, ops, hsome, by simpa using hlen, by simpa using holen, by simpa using hsum,
    ?_, by simpa using hcontig h2⟩
  exact (read_loop_fields B stE e a L LEECH_FUEL 0 rs ops hsome).imp
    fun r op h => ⟨h.2.2.1, h.2.2.2.1⟩

/-- Witness for C1's theorem at a concrete input: address 4096, length 3000. -/
theorem pcileech_read_chunking_witness :
    (3000 ≤ U64 - BUFF_SIZE ∧ 4096 + 3000 ≤ U64) ∧
    (∃ rs ops,
      pci_leech_process_read_request backendZero false ⟨0, 0, 4096, 3000⟩ = some (rs, ops) ∧
      rs.length = (3000 + 1023) / 1024 ∧
      ops.length = (3000 + 1023) / 1024 ∧
      (rs.map fun r => r.payload.length).sum = 3000 ∧
      List.Forall₂ (fun (r : EmittedResponse) op =>
        r.payload.length = opLen op ∧
        r.header.length =
          (if (0 : Nat) ≠ (if false then 1 else 0) then bswap64 (opLen op)
            else opLen op)) rs ops ∧
      contiguousFromB 4096 (opRanges ops) = true) :=
  ⟨⟨by decide, by decide⟩,
    pcileech_read_chunking backendZero false 0 4096 3000 (by decide) (by decide)⟩

/-- Counterexample to C1 as stated (quantifying over all `uint64_t` requests):
at address `2^64 - 1024` with length 2048 the second chunk's backend address
wraps to 0, so the read ranges are not contiguous-ascending from the request
address; and at length `2^64 - 1` the chunk loop's `uint64_t` index wraps
forever and the loop never terminates (no response list is produced at all,
rather than `ceil(L/1024)` pairs). -/
theorem pcileech_read_chunking_cex :
    Option.map (fun p => contiguousFromB (U64 - 1024) (opRanges p.2))
        (pci_leech_process_read_request backendZero false ⟨0, 0, U64 - 1024, 2048⟩) =
      some false ∧
    pci_leech_process_read_request backendZero false ⟨0, 0, 0, U64 - 1⟩ = none := by
  constructor
  · decide
  · exact read_loop_diverges backendZero false 0 0 (U64 - 1)
      (by norm_num [U64, BUFF_SIZE]) LEECH_FUEL 0 (dvd_zero _) (by norm_num [U64])

/-- C4 (amended): the read request `{command = Read, address = 0x1000,
length = 2500}` produces exactly three response pairs with payload lengths
1024, 1024 and 452, whose backend reads are issued at addresses `0x1000`,
`0x1400` and `0x1800` (not `0x18E4`: the third chunk starts at offset 2048 =
`0x800`). -/
theorem pcileech_read_2500_scenario (B : Backend) (stE : Bool) (e : Nat) :
    Option.map (fun p => ((p.1.map fun r => r.payload.length),
        p.2.map opAddr, p.2.map opLen))
      (pci_leech_process_read_request B stE ⟨e, 0, 4096, 2500⟩) =
      some ([1024, 1024, 452], [4096, 5120, 6144], [1024, 1024, 452]) := by
  have e1 : LEECH_FUEL = (LEECH_FUEL - 1) + 1 := by norm_num [LEECH_FUEL]
  have e2 : LEECH_FUEL - 1 = (LEECH_FUEL - 2) + 1 := by norm_num [LEECH_FUEL]
  have e3 : LEECH_FUEL - 2 = (LEECH_FUEL - 3) + 1 := by norm_num [LEECH_FUEL]
  have e4 : LEECH_FUEL - 3 = (LEECH_FUEL - 4) + 1 := by norm_num [LEECH_FUEL]
  have m1 : (0 + BUFF_SIZE) % U64 = 1024 := by norm_num [U64, BUFF_SIZE]
  have m2 : (1024 + BUFF_SIZE) % U64 = 2048 := by norm_num [U64, BUFF_SIZE]
  have m3 : (2048 + BUFF_SIZE) % U64 = 3072 := by norm_num [U64, BUFF_SIZE]
  show Option.map _ (pci_leech_read_loop B stE e 4096 2500 LEECH_FUEL 0) = _
  rw [e1, read_loop_step B stE e 4096 2500 _ 0 (by norm_num), m1,
    e2, read_loop_step B stE e 4096 2500 _ 1024 (by norm_num), m2,
    e3, read_loop_step B stE e 4096 2500 _ 2048 (by norm_num), m3,
    e4, read_loop_stop B stE e 4096 2500 _ 3072 (by norm_num)]
  simp only [Option.map_some', List.map_cons, List.map_nil, List.length_map,
    List.length_range, opAddr, opLen]
  norm_num [U64, BUFF_SIZE]

/-- Counterexample to C4 as stated: the third backend read of the
`{Read, 0x1000, 2500}` request is issued at `0x1800`, not at `0x18E4` as the
claim says. -/
theorem pcileech_read_2500_cex :
    Option.map (fun p => p.2.map opAddr)
        (pci_leech_process_read_request backendZero false ⟨0, 0, 0x1000, 2500⟩) =
      some [0x1000, 0x1400, 0x1800] ∧
    ¬ Option.map (fun p => p.2.map opAddr)
        (pci_leech_process_read_request backendZero false ⟨0, 0, 0x1000, 2500⟩) =
      some [0x1000, 0x1400, 0x18E4] := by
  constructor <;> decide

/-- C7: for every chunk of every read or write request, the backend's status
code is placed verbatim (uninterpreted) into that chunk's response result
field, and a non-success status does not abort the chunk loop or the session:
the shape of the run (number of responses, and the exact backend operations
issued) is completely independent of the backend's status functions and
memory contents. -/
theorem pcileech_status_verbatim (B B' : Backend) (stE : Bool) (e a L a2 L2 : Nat)
    (stream : List Nat) (rs : List EmittedResponse) (ops : List BackendOp)
    (ws : List EmittedResponse) (wops : List BackendOp) (rest : List Nat)
    (hr : pci_leech_process_read_request B stE ⟨e, 0, a, L⟩ = some (rs, ops))
    (hw : pci_leech_process_write_request B stE ⟨e, 1, a2, L2⟩ stream =
      some (ws, wops, rest)) :
    List.Forall₂ (fun (r : EmittedResponse) op => r.header.result = opStatus B op) rs ops ∧
    List.Forall₂ (fun (r : EmittedResponse) op => r.header.result = opStatus B op) ws wops ∧
    Option.map (fun p => (p.1.length, p.2.map fun op => (opAddr op, opLen op)))
        (pci_leech_process_read_request B stE ⟨e, 0, a, L⟩) =
      Option.map (fun p => (p.1.length, p.2.map fun op => (opAddr op, opLen op)))
        (pci_leech_process_read_request B' stE ⟨e, 0, a, L⟩) ∧
    Option.map (fun t => (t.1.length, t.2))
        (pci_leech_process_write_request B stE ⟨e, 1, a2, L2⟩ stream) =
      Option.map (fun t => (t.1.length, t.2))
        (pci_leech_process_write_request B' stE ⟨e, 1, a2, L2⟩ stream) :=
  ⟨(read_loop_fields B stE e a L LEECH_FUEL 0 rs ops hr).imp fun r op h => h.2.1,
   (write_loop_fields B stE a2 L2 LEECH_FUEL 0 stream ws wops rest hw).imp
     fun r op h => by rw [h.1],
   read_loop_backend_indep B B' stE e a L LEECH_FUEL 0,
   write_loop_backend_indep B B' stE a2 L2 LEECH_FUEL 0 stream⟩

/-- Witness for C7's theorem at concrete inputs (read of length 3, write of
length 2). -/
theorem pcileech_status_verbatim_witness :
    (pci_leech_process_read_request backendZero false ⟨0, 0, 0, 3⟩ =
        some ([⟨⟨0, 0, 3⟩, [0, 0, 0]⟩], [BackendOp.read 0 3]) ∧
      pci_leech_process_write_request backendZero false ⟨0, 1, 0, 2⟩ [5, 6] =
        some ([⟨⟨0, 0, 0⟩, []⟩], [BackendOp.write 0 [5, 6]], [])) ∧
    (List.Forall₂ (fun (r : EmittedResponse) op =>
        r.header.result = opStatus backendZero op)
        [⟨⟨0, 0, 3⟩, [0, 0, 0]⟩] [BackendOp.read 0 3] ∧
      List.Forall₂ (fun (r : EmittedResponse) op =>
        r.header.result = opStatus backendZero op)
        [⟨⟨0, 0, 0⟩, []⟩] [BackendOp.write 0 [5, 6]] ∧
      Option.map (fun p => (p.1.length, p.2.map fun op => (opAddr op, opLen op)))
          (pci_leech_process_read_request backendZero false ⟨0, 0, 0, 3⟩) =
        Option.map (fun p => (p.1.length, p.2.map fun op => (opAddr op, opLen op)))
          (pci_leech_process_read_request backendZero false ⟨0, 0, 0, 3⟩) ∧
      Option.map (fun t => (t.1.length, t.2))
          (pci_leech_process_write_request backendZero false ⟨0, 1, 0, 2⟩ [5, 6]) =
        Option.map (fun t => (t.1.length, t.2))
          (pci_leech_process_write_request backendZero false ⟨0, 1, 0, 2⟩ [5, 6])) :=
  ⟨⟨by decide, by decide⟩,
    pcileech_status_verbatim backendZero backendZero false 0 0 3 0 2 [5, 6]
      [⟨⟨0, 0, 3⟩, [0, 0, 0]⟩] [BackendOp.read 0 3]
      [⟨⟨0, 0, 0⟩, []⟩] [BackendOp.write 0 [5, 6]] []
      (by decide) (by decide)⟩

/-- C10: every backend operation of every (read or write) request run is a
chunk of size `min(remaining, 1024)` with `remaining > 0`, hence between 1
and 1024 bytes — the 1024-byte scratch buffer is never overrun, by any
backend access or by any receive into it. -/
theorem pcileech_chunk_bound (B : Backend) (stE : Bool) (e a L a2 L2 : Nat)
    (stream : List Nat) (rs : List EmittedResponse) (ops : List BackendOp)
    (ws : List EmittedResponse) (wops : List BackendOp) (rest : List Nat)
    (hr : pci_leech_process_read_request B stE ⟨e, 0, a, L⟩ = some (rs, ops))
    (hw : pci_leech_process_write_request B stE ⟨e, 1, a2, L2⟩ stream =
      some (ws, wops, rest)) :
    (∀ op ∈ ops, 1 ≤ opLen op ∧ opLen op ≤ 1024 ∧
      ∃ rem, 0 < rem ∧ opLen op = min rem 1024) ∧
    (∀ op ∈ wops, 1 ≤ opLen op ∧ opLen op ≤ 1024 ∧
      ∃ rem, 0 < rem ∧ opLen op = min rem 1024) := by
  have hB : BUFF_SIZE = 1024 := rfl
  constructor
  · intro op hop
    obtain ⟨r, hR⟩ :=
      forall2_mem_right (read_loop_fields B stE e a L LEECH_FUEL 0 rs ops hr) op hop
    obtain ⟨rem, hrem, hlen⟩ := hR.2.2.2.2
    rw [hB] at hlen
    exact ⟨by omega, by omega, rem, hrem, hlen⟩
  · intro op hop
    obtain ⟨r, hR⟩ :=
      forall2_mem_right (write_loop_fields B stE a2 L2 LEECH_FUEL 0 stream ws wops rest hw)
        op hop
    obtain ⟨rem, hrem, hlen⟩ := hR.2.2
    rw [hB] at hlen
    exact ⟨by omega, by omega, rem, hrem, hlen⟩

/-- Witness for C10's theorem at concrete inputs. -/
theorem pcileech_chunk_bound_witness :
    (pci_leech_process_read_request backendZero false ⟨0, 0, 0, 3⟩ =
        some ([⟨⟨0, 0, 3⟩, [0, 0, 0]⟩], [BackendOp.read 0 3]) ∧
      pci_leech_process_write_request backendZero false ⟨0, 1, 0, 2⟩ [5, 6] =
        some ([⟨⟨0, 0, 0⟩, []⟩], [BackendOp.write 0 [5, 6]], [])) ∧
    ((∀ op ∈ [BackendOp.read 0 3], 1 ≤ opLen op ∧ opLen op ≤ 1024 ∧
        ∃ rem, 0 < rem ∧ opLen op = min rem 1024) ∧
      (∀ op ∈ [BackendOp.write 0 [5, 6]], 1 ≤ opLen op ∧ opLen op ≤ 1024 ∧
        ∃ rem, 0 < rem ∧ opLen op = min rem 1024)) :=
  ⟨⟨by decide, by decide⟩,
    pcileech_chunk_bound backendZero false 0 0 3 0 2 [5, 6]
      [⟨⟨0, 0, 3⟩, [0, 0, 0]⟩] [BackendOp.read 0 3]
      [⟨⟨0, 0, 0⟩, []⟩] [BackendOp.write 0 [5, 6]] []
      (by decide) (by decide)⟩

/-! ## Connection handling over encoded headers -/

theorem mk_append_take (e c a l : Nat) (rest : List Nat) :
    (mkRequestBytes e c a l ++ rest).take 24 = mkRequestBytes e c a l :=
  List.take_left' (mkRequestBytes_length e c a l)

theorem mk_append_drop (e c a l : Nat) (rest : List Nat) :
    (mkRequestBytes e c a l ++ rest).drop 24 = rest :=
  List.drop_left' (mkRequestBytes_length e c a l)

theorem mk_append_not_short (e c a l : Nat) (rest : List Nat) :
    ¬ (mkRequestBytes e c a l ++ rest).length < 24 := by
  simp [mkRequestBytes_length]

theorem handleConnection_mk (B : Backend) (stE : Bool) (e c a l : Nat) (rest : List Nat)
    (he : e < 2) (ha : a < U64) (hl : l < U64) :
    handleConnection B stE (mkRequestBytes e c a l ++ rest) =
      if c % 256 ≠ 0 then
        Option.map (fun t => ⟨⟨e, c % 256, a, l⟩, t.1, t.2.1, t.2.2⟩)
          (pci_leech_process_write_request B stE ⟨e, c % 256, a, l⟩ rest)
      else
        Option.map (fun p => ⟨⟨e, c % 256, a, l⟩, p.1, p.2, rest⟩)
          (pci_leech_process_read_request B stE ⟨e, c % 256, a, l⟩) := by
  simp only [handleConnection, if_neg (mk_append_not_short e c a l rest),
    mk_append_take, mk_append_drop, normalize_decode_mk stE e c a l he ha hl]

/-- Counterexample to C3 as stated: a header with unknown command 7 and
length 1 is not dropped — the engine consumes the payload byte, performs one
backend write, and emits one response. -/
theorem pcileech_unknown_command_cex :
    Option.map (fun r : ConnResult => (r.responses.length, r.ops))
        (handleConnection backendZero false (mkRequestBytes 0 7 0 1 ++ [99])) =
      some (1, [BackendOp.write 0 [99]]) := by
  decide

/-- C3 (amended): the worker dispatches on `if (request.command)`, so a header
with any nonzero command value (such as 7) is processed exactly as a Write
request with the same endianness, address and length: same responses, same
backend operations, same stream consumption.  It is not silently dropped. -/
theorem pcileech_unknown_command_as_write (B : Backend) (stE : Bool) (e c a l : Nat)
    (rest : List Nat) (he : e < 2) (ha : a < U64) (hl : l < U64)
    (hc : c ≠ 0) (hc2 : c < 256) :
    Option.map (fun r : ConnResult => (r.responses, r.ops, r.leftover))
        (handleConnection B stE (mkRequestBytes e c a l ++ rest)) =
      Option.map (fun r : ConnResult => (r.responses, r.ops, r.leftover))
        (handleConnection B stE (mkRequestBytes e 1 a l ++ rest)) := by
  rw [handleConnection_mk B stE e c a l rest he ha hl,
    handleConnection_mk B stE e 1 a l rest he ha hl,
    Nat.mod_eq_of_lt hc2]
  simp [hc, pci_leech_process_write_request, Option.map_map, Function.comp_def]

/-- Witness for C3's amended theorem at command 7. -/
theorem pcileech_unknown_command_as_write_witness :
    ((0 : Nat) < 2 ∧ (0 : Nat) < U64 ∧ (1 : Nat) < U64 ∧ (7 : Nat) ≠ 0 ∧
      (7 : Nat) < 256) ∧
    Option.map (fun r : ConnResult => (r.responses, r.ops, r.leftover))
        (handleConnection backendZero false (mkRequestBytes 0 7 0 1 ++ [99])) =
      Option.map (fun r : ConnResult => (r.responses, r.ops, r.leftover))
        (handleConnection backendZero false (mkRequestBytes 0 1 0 1 ++ [99])) :=
  ⟨⟨by decide, by decide, by decide, by decide, by decide⟩,
    pcileech_unknown_command_as_write backendZero false 0 7 0 1 [99]
      (by decide) (by decide) (by decide) (by decide) (by decide)⟩

/-! ## Encoded response bytes -/

theorem u32BytesOrd_length (big : Bool) (x : Nat) : (u32BytesOrd big x).length = 4 := by
  cases big <;> simp [u32BytesOrd, toBytesLE_length]

theorem encodeResponseBytes_take8 (hostBig : Bool) (r : LeechResponseHeader) :
    (encodeResponseBytes hostBig r).take 8 =
      r.endianness % 256 :: 0 :: 0 :: 0 :: u32BytesOrd hostBig (r.result % 2 ^ 32) := by
  simp only [encodeResponseBytes, List.take_succ_cons]
  rw [List.take_left' (u32BytesOrd_length hostBig _)]

/-- Shared fuel bound: `LEECH_FUEL` covers every terminating chunk loop. -/
theorem leech_fuel_enough (L : Nat) (h : L ≤ U64 - BUFF_SIZE) :
    L ≤ 0 + 1024 * (LEECH_FUEL - 1) := by
  have hF : LEECH_FUEL = 1152921504606846976 := by norm_num [LEECH_FUEL]
  have hU : U64 = 18446744073709551616 := by norm_num [U64]
  have hB : BUFF_SIZE = 1024 := rfl
  omega

/-- C6: the endianness byte-swap is applied exactly once per multi-byte
field: `bswap64` is an involution on 64-bit values, a client-encoded field
decodes (after the worker's normalization step) to the original value for
both matching and differing declared orders, the raw struct field is
untouched when the declared order equals the host's, and it is exactly the
byte-swapped transmitted field when they differ. -/
theorem pcileech_endianness_once (stE : Bool) (e c a l : Nat)
    (he : e < 2) (ha : a < U64) (hl : l < U64) :
    bswap64 (bswap64 a) = a ∧
    normalizeRequest stE (decodeRequestRaw stE (mkRequestBytes e c a l)) =
      ⟨e, c % 256, a, l⟩ ∧
    (e = (if stE then 1 else 0) →
      decodeRequestRaw stE (mkRequestBytes e c a l) = ⟨e, c % 256, a, l⟩) ∧
    (e ≠ (if stE then 1 else 0) →
      (decodeRequestRaw stE (mkRequestBytes e c a l)).address = bswap64 a ∧
      (decodeRequestRaw stE (mkRequestBytes e c a l)).length = bswap64 l) := by
  refine ⟨bswap64_bswap64 a ha, normalize_decode_mk stE e c a l he ha hl, ?_, ?_⟩
  · intro hmatch
    have hend : (decodeRequestRaw stE (mkRequestBytes e c a l)).endianness =
        (if stE then 1 else 0) := by
      rw [decodeRequestRaw_mk]
      simpa [Nat.mod_eq_of_lt (show e < 256 by omega)] using hmatch
    have hn := normalize_decode_mk stE e c a l he ha hl
    rw [← hn, normalizeRequest, if_neg (by simp [hend])]
  · intro hdiff
    have he256 : e % 256 = e := Nat.mod_eq_of_lt (by omega)
    rw [decodeRequestRaw_mk]
    constructor
    · show u64FromBytesOrd stE (u64BytesOrd (e % 256 != 0) a) = bswap64 a
      rw [he256]
      apply u64From_u64Bytes_cross
      interval_cases e <;> cases stE <;> simp_all
    · show u64FromBytesOrd stE (u64BytesOrd (e % 256 != 0) l) = bswap64 l
      rw [he256]
      apply u64From_u64Bytes_cross
      interval_cases e <;> cases stE <;> simp_all

/-- Witness for C6's theorem with a big-endian-declared client on a
little-endian host. -/
theorem pcileech_endianness_once_witness :
    ((1 : Nat) < 2 ∧ 81985529216486895 < U64 ∧ 1234605616436508552 < U64) ∧
    (bswap64 (bswap64 81985529216486895) = 81985529216486895 ∧
     normalizeRequest false
        (decodeRequestRaw false (mkRequestBytes 1 0 81985529216486895 1234605616436508552)) =
       ⟨1, 0 % 256, 81985529216486895, 1234605616436508552⟩ ∧
     ((1 : Nat) = (if false then 1 else 0) →
       decodeRequestRaw false (mkRequestBytes 1 0 81985529216486895 1234605616436508552) =
         ⟨1, 0 % 256, 81985529216486895, 1234605616436508552⟩) ∧
     ((1 : Nat) ≠ (if false then 1 else 0) →
       (decodeRequestRaw false
           (mkRequestBytes 1 0 81985529216486895 1234605616436508552)).address =
         bswap64 81985529216486895 ∧
       (decodeRequestRaw false
           (mkRequestBytes 1 0 81985529216486895 1234605616436508552)).length =
         bswap64 1234605616436508552)) :=
  ⟨⟨by decide, by decide, by decide⟩,
    pcileech_endianness_once false 1 0 81985529216486895 1234605616436508552
      (by decide) (by decide) (by decide)⟩

/-- C8: however a 24-byte request header is fragmented into 1..24 transport
deliveries (whose concatenation is those 24 bytes), the accumulation loop
reassembles exactly the same 24 bytes, so the decoded request is identical to
the one decoded from a single 24-byte delivery. -/
theorem pcileech_header_fragmentation (stE : Bool) (frags : List (List Nat))
    (buf0 : List Nat) (hb : buf0.length = 24) (hj : frags.flatten.length = 24)
    (h1 : 1 ≤ frags.length) (h24 : frags.length ≤ 24) :
    decodeRequestRaw stE (recvAccumLoop frags buf0 0).1 =
      decodeRequestRaw stE (recvAccumLoop [frags.flatten] buf0 0).1 := by
  rw [recvAccumLoop_total frags buf0 hb hj,
    recvAccumLoop_total [frags.flatten] buf0 hb (by simpa using hj)]
  simp

/-- Witness for C8's theorem: a 3-byte delivery followed by a 21-byte one. -/
theorem pcileech_header_fragmentation_witness :
    ((List.replicate 24 0 : List Nat).length = 24 ∧
     ([[9, 1, 2], List.replicate 21 7] : List (List Nat)).flatten.length = 24 ∧
     1 ≤ ([[9, 1, 2], List.replicate 21 7] : List (List Nat)).length ∧
     ([[9, 1, 2], List.replicate 21 7] : List (List Nat)).length ≤ 24) ∧
    decodeRequestRaw false
        (recvAccumLoop [[9, 1, 2], List.replicate 21 7] (List.replicate 24 0) 0).1 =
      decodeRequestRaw false
        (recvAccumLoop [([[9, 1, 2], List.replicate 21 7] :
          List (List Nat)).flatten] (List.replicate 24 0) 0).1 :=
  ⟨⟨by decide, by decide, by decide, by decide⟩,
    pcileech_header_fragmentation false [[9, 1, 2], List.replicate 21 7]
      (List.replicate 24 0) (by decide) (by decide) (by decide) (by decide)⟩

/-- C9: the 4-byte result field of every read response header is emitted in
host-native byte order and never byte-swapped, even when the request declares
the opposite endianness: the first 8 wire bytes of each response header
(endianness, reserved, result) are identical to those of the
matching-endianness run over the same backend operations, while the 8-byte
length field is exactly the byte-swapped counterpart; the result value itself
is always the backend's status verbatim. -/
theorem pcileech_result_not_swapped (B : Backend) (stE : Bool) (e a L : Nat)
    (h1 : L ≤ U64 - BUFF_SIZE) (hdiff : e ≠ (if stE then 1 else 0)) :
    ∃ rs ops rs',
      pci_leech_process_read_request B stE ⟨e, 0, a, L⟩ = some (rs, ops) ∧
      pci_leech_process_read_request B stE ⟨(if stE then 1 else 0), 0, a, L⟩ =
        some (rs', ops) ∧
      rs.map (fun r => (encodeResponseBytes stE r.header).take 8) =
        rs'.map (fun r => (encodeResponseBytes stE r.header).take 8) ∧
      rs.map (fun r => r.header.length) = rs'.map (fun r => bswap64 r.header.length) ∧
      List.Forall₂ (fun (r : EmittedResponse) op =>
        r.header.result = opStatus B op) rs ops := by
  obtain ⟨rs, ops, hsome, _, _, _, _⟩ :=
    read_loop_run B stE e a L h1 LEECH_FUEL 0 (by norm_num [LEECH_FUEL])
      (leech_fuel_enough L h1)
  obtain ⟨rs', ops2, hsome', _, _, _, _⟩ :=
    read_loop_run B stE (if stE then 1 else 0) a L h1 LEECH_FUEL 0
      (by norm_num [LEECH_FUEL]) (leech_fuel_enough L h1)
  have hind := read_loop_reqend_indep B stE e (if stE then 1 else 0) a L LEECH_FUEL 0
  rw [hsome, hsome'] at hind
  simp only [Option.map_some', Option.some.injEq, Prod.mk.injEq] at hind
  obtain ⟨hmap, hops⟩ := hind
  subst hops
  have hf := read_loop_fields B stE e a L LEECH_FUEL 0 rs ops hsome
  have hf' := read_loop_fields B stE (if stE then 1 else 0) a L LEECH_FUEL 0 rs' ops hsome'
  refine ⟨rs, ops, rs', hsome, hsome', ?_, ?_, hf.imp fun r op h => h.2.1⟩
  · have h8 : rs.map (fun r => (encodeResponseBytes stE r.header).take 8) =
        ops.map (fun op => ((if stE then 1 else 0 : Nat) % 256) :: 0 :: 0 :: 0 ::
          u32BytesOrd stE (opStatus B op % 2 ^ 32)) :=
      forall2_map_congr (fun r op h => by rw [encodeResponseBytes_take8, h.1, h.2.1]) hf
    have h8' : rs'.map (fun r => (encodeResponseBytes stE r.header).take 8) =
        ops.map (fun op => ((if stE then 1 else 0 : Nat) % 256) :: 0 :: 0 :: 0 ::
          u32BytesOrd stE (opStatus B op % 2 ^ 32)) :=
      forall2_map_congr (fun r op h => by rw [encodeResponseBytes_take8, h.1, h.2.1]) hf'
    rw [h8, h8']
  · have hL1 : rs.map (fun r => r.header.length) = ops.map (fun op => bswap64 (opLen op)) :=
      forall2_map_congr (fun r op h => by rw [h.2.2.2.1, if_pos hdiff]) hf
    have hL2 : rs'.map (fun r => bswap64 r.header.length) =
        ops.map (fun op => bswap64 (opLen op)) :=
      forall2_map_congr (fun r op h => by
        rw [h.2.2.2.1, if_neg (by simp)]) hf'
    rw [hL1, hL2]

/-- Witness for C9's theorem at a concrete input (declared endianness 1 on a
little-endian host, read of length 3). -/
theorem pcileech_result_not_swapped_witness :
    (3 ≤ U64 - BUFF_SIZE ∧ (1 : Nat) ≠ (if false then 1 else 0)) ∧
    (∃ rs ops rs',
      pci_leech_process_read_request backendZero false ⟨1, 0, 0, 3⟩ = some (rs, ops) ∧
      pci_leech_process_read_request backendZero false
          ⟨(if false then 1 else 0), 0, 0, 3⟩ = some (rs', ops) ∧
      rs.map (fun r => (encodeResponseBytes false r.header).take 8) =
        rs'.map (fun r => (encodeResponseBytes false r.header).take 8) ∧
      rs.map (fun r => r.header.length) = rs'.map (fun r => bswap64 r.header.length) ∧
      List.Forall₂ (fun (r : EmittedResponse) op =>
        r.header.result = opStatus backendZero op) rs ops) :=
  ⟨⟨by decide, by decide⟩,
    pcileech_result_not_swapped backendZero false 1 0 3 (by decide) (by decide)⟩

/-- C2 (amended): for every write request of length `0 < N ≤ 2^64 - 1024`
whose address range does not wrap (`a + N ≤ 2^64`), served by the worker on
one connection carrying the encoded header followed by `N` payload bytes:
the engine consumes exactly the `N` payload bytes (the remainder of the
stream is left untouched), issues backend writes of exactly those bytes in
ascending contiguous address order starting at `a`, emits exactly one
response per 1024-bounded chunk with length field 0 and no payload, and the
worker then parses the first 24 bytes of the next accepted connection as a
fresh request header (each connection serves exactly one request). -/
theorem pcileech_write_chunking (B : Backend) (stE : Bool) (e a N e2 a2 l2 : Nat)
    (payload rest : List Nat)
    (h0 : 0 < N) (h1 : N ≤ U64 - BUFF_SIZE) (h2 : a + N ≤ U64) (he : e < 2)
    (hp : payload.length = N)
    (he2 : e2 < 2) (ha2 : a2 < U64) (hl2 : l2 ≤ U64 - BUFF_SIZE) :
    ∃ res res2 : ConnResult,
      pci_leech_worker_run B stE
        [mkRequestBytes e 1 a N ++ (payload ++ rest), mkRequestBytes e2 0 a2 l2] =
        [some res, some res2] ∧
      res.request = ⟨e, 1, a, N⟩ ∧
      res.responses.length = (N + 1023) / 1024 ∧
      res.ops.length = res.responses.length ∧
      (∀ r ∈ res.responses, r.header.length = 0 ∧ r.payload = []) ∧
      writtenBytes res.ops = payload ∧
      contiguousFromB a (opRanges res.ops) = true ∧
      res.leftover = rest ∧
      res2.request = ⟨e2, 0, a2, l2⟩ := by
  have hU : U64 = 18446744073709551616 := by norm_num [U64]
  have hB : BUFF_SIZE = 1024 := rfl
  have ha : a < U64 := by omega
  have hN : N < U64 := by omega
  have hl2U : l2 < U64 := by omega
  obtain ⟨ws, wops, hsome, hlen, holen, hwr, hresp, hcontig⟩ :=
    write_loop_run B stE a N h1 LEECH_FUEL 0 (payload ++ rest)
      (by norm_num [LEECH_FUEL]) (leech_fuel_enough N h1) (by simp [hp])
  obtain ⟨rs2, ops2, hsome2, _, _, _, _⟩ :=
    read_loop_run B stE e2 a2 l2 hl2 LEECH_FUEL 0 (by norm_num [LEECH_FUEL])
      (leech_fuel_enough l2 hl2)
  simp only [pci_leech_worker_run, List.map_cons, List.map_nil]
  rw [show mkRequestBytes e2 0 a2 l2 = mkRequestBytes e2 0 a2 l2 ++ [] from
      (List.append_nil _).symm,
    handleConnection_mk B stE e 1 a N (payload ++ rest) he ha hN,
    handleConnection_mk B stE e2 0 a2 l2 [] he2 ha2 hl2U,
    if_pos (show (1 : Nat) % 256 ≠ 0 by norm_num),
    if_neg (show ¬ ((0 : Nat) % 256 ≠ 0) by norm_num),
    show pci_leech_process_write_request B stE ⟨e, 1 % 256, a, N⟩ (payload ++ rest) =
      pci_leech_write_loop B stE a N LEECH_FUEL 0 (payload ++ rest) from rfl, hsome,
    show pci_leech_process_read_request B stE ⟨e2, 0 % 256, a2, l2⟩ =
      pci_leech_read_loop B stE e2 a2 l2 LEECH_FUEL 0 from rfl, hsome2]
  simp only [Option.map_some']
  refine ⟨_, _, rfl, rfl, ?_, ?_, ?_, ?_, ?_, ?_, rfl⟩
  · simpa using hlen
  · simp only
    rw [holen, hlen]
  · exact hresp
  · rw [hwr]
    simpa using List.take_left' hp
  · simpa using hcontig h2
  · simpa using List.drop_left' hp

/-- Witness for C2's theorem: a 10-byte write at address 8192 delivered with
2 extra trailing bytes, followed by a read-request connection. -/
theorem pcileech_write_chunking_witness :
    (0 < 10 ∧ 10 ≤ U64 - BUFF_SIZE ∧ 8192 + 10 ≤ U64 ∧ (0 : Nat) < 2 ∧
      (List.replicate 10 3 : List Nat).length = 10 ∧ (0 : Nat) < 2 ∧
      (4096 : Nat) < U64 ∧ (7 : Nat) ≤ U64 - BUFF_SIZE) ∧
    (∃ res res2 : ConnResult,
      pci_leech_worker_run backendZero false
        [mkRequestBytes 0 1 8192 10 ++ (List.replicate 10 3 ++ [77, 78]),
          mkRequestBytes 0 0 4096 7] =
        [some res, some res2] ∧
      res.request = ⟨0, 1, 8192, 10⟩ ∧
      res.responses.length = (10 + 1023) / 1024 ∧
      res.ops.length = res.responses.length ∧
      (∀ r ∈ res.responses, r.header.length = 0 ∧ r.payload = []) ∧
      writtenBytes res.ops = List.replicate 10 3 ∧
      contiguousFromB 8192 (opRanges res.ops) = true ∧
      res.leftover = [77, 78] ∧
      res2.request = ⟨0, 0, 4096, 7⟩) :=
  ⟨⟨by decide, by decide, by decide, by decide, by decide, by decide, by decide,
      by decide⟩,
    pcileech_write_chunking backendZero false 0 8192 10 0 4096 7
      (List.replicate 10 3) [77, 78] (by decide) (by decide) (by decide) (by decide)
      (by decide) (by decide) (by decide) (by decide)⟩

/-- Counterexample to C2 as stated (quantifying over all `uint64_t` write
requests): at address `2^64 - 1024` with `N = 2048` the second chunk's
backend write address wraps to 0, so the writes do not cover
`address .. address + N - 1` in ascending order. -/
theorem pcileech_write_chunking_cex :
    Option.map (fun r : ConnResult => contiguousFromB (U64 - 1024) (opRanges r.ops))
        (handleConnection backendZero false
          (mkRequestBytes 0 1 (U64 - 1024) 2048 ++ List.replicate 2048 7)) =
      some false := by
  have e1 : LEECH_FUEL = (LEECH_FUEL - 1) + 1 := by norm_num [LEECH_FUEL]
  have e2 : LEECH_FUEL - 1 = (LEECH_FUEL - 2) + 1 := by norm_num [LEECH_FUEL]
  have e3 : LEECH_FUEL - 2 = (LEECH_FUEL - 3) + 1 := by norm_num [LEECH_FUEL]
  have ms1 : min (2048 - 0) BUFF_SIZE = 1024 := by norm_num [BUFF_SIZE]
  have ms2 : min (2048 - 1024) BUFF_SIZE = 1024 := by norm_num [BUFF_SIZE]
  have m1 : (0 + BUFF_SIZE) % U64 = 1024 := by norm_num [U64, BUFF_SIZE]
  have m2 : (1024 + BUFF_SIZE) % U64 = 2048 := by norm_num [U64, BUFF_SIZE]
  rw [handleConnection_mk backendZero false 0 1 (U64 - 1024) 2048
      (List.replicate 2048 7) (by norm_num) (by norm_num [U64]) (by norm_num [U64]),
    if_pos (show (1 : Nat) % 256 ≠ 0 by norm_num),
    show pci_leech_process_write_request backendZero false
        ⟨0, 1 % 256, U64 - 1024, 2048⟩ (List.replicate 2048 7) =
      pci_leech_write_loop backendZero false (U64 - 1024) 2048 LEECH_FUEL 0
        (List.replicate 2048 7) from rfl,
    e1, write_loop_step backendZero false (U64 - 1024) 2048 _ 0 _ (by norm_num)
      (by simp only [List.length_replicate, BUFF_SIZE]; omega),
    ms1, m1,
    e2, write_loop_step backendZero false (U64 - 1024) 2048 _ 1024 _ (by norm_num)
      (by simp only [List.length_drop, List.length_replicate, BUFF_SIZE]; omega),
    ms2, m2,
    e3, write_loop_stop backendZero false (U64 - 1024) 2048 _ 2048 _ (by norm_num)]
  simp only [Option.map_some', Option.some.injEq, opRanges, List.map_cons,
    List.map_nil, opAddr, opLen, contiguousFromB, List.length_take,
    List.length_drop, List.length_replicate]
  decide

/-- Counterexample to C5 as stated: the write request
`{command = Write, address = 0x2000, length = 10}` whose 10 payload bytes
arrive in transport fragments of sizes 3, 4 and 3 (accumulated back-to-back
by the receive loop, first conjunct) results in exactly ONE backend write of
all 10 bytes and exactly ONE response — not three writes and three
responses. -/
theorem pcileech_write_10_cex :
    (recvAccumLoop [[65, 66, 67], [68, 69, 70, 71], [72, 73, 74]]
        (List.replicate 10 0) 0).1 = [65, 66, 67, 68, 69, 70, 71, 72, 73, 74] ∧
    Option.map (fun r : ConnResult => (r.responses.length, r.ops))
        (handleConnection backendZero false (mkRequestBytes 0 1 8192 10 ++
          [65, 66, 67, 68, 69, 70, 71, 72, 73, 74])) =
      some (1, [BackendOp.write 8192 [65, 66, 67, 68, 69, 70, 71, 72, 73, 74]]) := by
  constructor <;> decide

/-- C5 (amended): the write request `{command = Write, address = 0x2000,
length = 10}` whose payload arrives in transport fragments of sizes 3, 4 and
3 has those fragments accumulated back-to-back by the blocking receive loop
into a single 1024-bounded chunk, resulting in exactly one backend write of
the 10 bytes at address 0x2000 and exactly one response with length field 0
and no payload; afterwards the session accepts a new request header (on the
next accepted connection). -/
theorem pcileech_write_10_scenario (B : Backend) (stE : Bool) :
    (recvAccumLoop [[65, 66, 67], [68, 69, 70, 71], [72, 73, 74]]
        (List.replicate 10 0) 0).1 = [65, 66, 67, 68, 69, 70, 71, 72, 73, 74] ∧
    Option.map (fun r : ConnResult =>
        (r.request, r.responses.map (fun x => (x.header.length, x.payload)), r.ops,
          r.leftover))
        (handleConnection B stE (mkRequestBytes 0 1 8192 10 ++
          [65, 66, 67, 68, 69, 70, 71, 72, 73, 74])) =
      some (⟨0, 1, 8192, 10⟩, [(0, [])],
        [BackendOp.write 8192 [65, 66, 67, 68, 69, 70, 71, 72, 73, 74]], []) ∧
    Option.map (fun r : ConnResult => r.request)
        (handleConnection B stE (mkRequestBytes 0 0 12288 0 ++ [])) =
      some ⟨0, 0, 12288, 0⟩ := by
  refine ⟨by decide, ?_, ?_⟩
  · have e1 : LEECH_FUEL = (LEECH_FUEL - 1) + 1 := by norm_num [LEECH_FUEL]
    have e2 : LEECH_FUEL - 1 = (LEECH_FUEL - 2) + 1 := by norm_num [LEECH_FUEL]
    have ms1 : min (10 - 0) BUFF_SIZE = 10 := by norm_num [BUFF_SIZE]
    have m1 : (0 + BUFF_SIZE) % U64 = 1024 := by norm_num [U64, BUFF_SIZE]
    have ma : (8192 + 0) % U64 = 8192 := by norm_num [U64]
    rw [handleConnection_mk B stE 0 1 8192 10
        [65, 66, 67, 68, 69, 70, 71, 72, 73, 74] (by norm_num)
        (by norm_num [U64]) (by norm_num [U64]),
      if_pos (show (1 : Nat) % 256 ≠ 0 by norm_num),
      show pci_leech_process_write_request B stE ⟨0, 1 % 256, 8192, 10⟩
          [65, 66, 67, 68, 69, 70, 71, 72, 73, 74] =
        pci_leech_write_loop B stE 8192 10 LEECH_FUEL 0
          [65, 66, 67, 68, 69, 70, 71, 72, 73, 74] from rfl,
      e1, write_loop_step B stE 8192 10 _ 0 _ (by norm_num) (by decide),
      ms1, m1, ma,
      e2, write_loop_stop B stE 8192 10 _ 1024 _ (by norm_num)]
    simp
  · have e1 : LEECH_FUEL = (LEECH_FUEL - 1) + 1 := by norm_num [LEECH_FUEL]
    rw [handleConnection_mk B stE 0 0 12288 0 [] (by norm_num) (by norm_num [U64])
        (by norm_num [U64]),
      if_neg (show ¬ ((0 : Nat) % 256 ≠ 0) by norm_num),
      show pci_leech_process_read_request B stE ⟨0, 0 % 256, 12288, 0⟩ =
        pci_leech_read_loop B stE 0 12288 0 LEECH_FUEL 0 from rfl,
      e1, read_loop_stop B stE 0 12288 0 _ 0 (by omega)]
    rfl
